import Mathlib

set_option maxHeartbeats 1600000

namespace Diskonaut

/-! Verification of diskonaut's specification against its code.

The development shallowly embeds the parts of the program the claims
touch: the aggregate file tree and its insert/delete rollups, the
disk-scanner loop, the producer/consumer shutdown protocol, the startup
error handling in `main`/`try_main`, the walker configuration, and the
bottom-line / display rendering logic.  Pure functions become Lean
functions; the threaded producers and the shared atomic flags become an
explicit interleaving transition system.  Machine integers are `Nat`
with the places where `u16` subtraction can underflow modelled
explicitly. -/

/-! ## The aggregate tree (claim C1) -/

/-- Kind of a filesystem entry. -/
inductive FileKind where
  | file
  | folder
deriving DecidableEq

/-- Modelled from the spec: the `Entry` node of the AggregateTree
(`src/state/files`, absent from `src/`): `name` keys the `children`
mapping, `size` is in bytes, `descendants` counts all File+Folder nodes
strictly beneath a Folder. -/
inductive Entry where
  | file (size : Nat)
  | folder (size : Nat) (descendants : Nat) (children : List (String × Entry))

/-- Size contribution of a child to its parent's rollup. -/
def contribSize : Entry → Nat
  | .file s => s
  | .folder s _ _ => s

/-- Descendant-count contribution of a child to its parent's rollup:
1 for a File, 1 + its own descendant count for a Folder. -/
def contribCount : Entry → Nat
  | .file _ => 1
  | .folder _ d _ => 1 + d

/-- Sum of the immediate children's sizes. -/
def childrenSize (cs : List (String × Entry)) : Nat :=
  (cs.map fun c => contribSize c.2).sum

/-- Sum of the immediate children's descendant contributions. -/
def childrenCount (cs : List (String × Entry)) : Nat :=
  (cs.map fun c => contribCount c.2).sum

mutual

/-- The spec's rollup invariant: every Folder's `size` is the sum of its
children's sizes and its `descendants` is the sum over children of
(1 + child.descendants if the child is a Folder else 1). -/
def entryInv : Entry → Bool
  | .file _ => true
  | .folder s d cs =>
    decide (s = childrenSize cs) && decide (d = childrenCount cs) && childrenInv cs

/-- The rollup invariant holding for every entry of a children list. -/
def childrenInv : List (String × Entry) → Bool
  | [] => true
  | c :: rest => entryInv c.2 && childrenInv rest

end

/-- First child bound to name `p` in a children mapping. -/
def lookupChild (p : String) : List (String × Entry) → Option Entry
  | [] => none
  | (q, e) :: rest => if q = p then some e else lookupChild p rest

/-- Replace the child bound to name `p` (first occurrence). -/
def replaceChild (p : String) (newC : Entry) : List (String × Entry) → List (String × Entry)
  | [] => []
  | (q, e) :: rest => if q = p then (q, newC) :: rest else (q, e) :: replaceChild p newC rest

/-- Remove the child bound to name `p` (first occurrence). -/
def removeChild (p : String) : List (String × Entry) → List (String × Entry)
  | [] => []
  | (q, e) :: rest => if q = p then rest else (q, e) :: removeChild p rest

/-- Write `newC` as the child named `p` of a folder whose current rollup
fields are `s`/`d`, propagating the size and descendant-count delta to
the folder as the spec's walk-back-up does (the old contribution is
removed, the new one added). -/
def writeChild (s d : Nat) (cs : List (String × Entry)) (p : String)
    (oldC : Option Entry) (newC : Entry) : Entry :=
  let oldSize := match oldC with | some c => contribSize c | none => 0
  let oldCount := match oldC with | some c => contribCount c | none => 0
  let cs2 := match oldC with | some _ => replaceChild p newC cs | none => cs ++ [(p, newC)]
  .folder ((s + contribSize newC) - oldSize) ((d + contribCount newC) - oldCount) cs2

/-- Modelled from the spec: `AggregateTree.insert(path_segments, size, kind)`
(`src/state/files` is absent from `src/`).  Walks/creates Folder nodes
along the path, creating missing intermediates with size 0/descendants 0,
writes the terminal Entry, and propagates the size/count deltas to every
ancestor.  Duplicate reports are idempotent-safe: last write wins for a
File's size, a re-reported Folder keeps its children, and the
descendant increment is applied only when the terminal path is first
created.  A Folder report carries no size of its own, matching the
spec's scenario `insert /b (Folder)` which leaves `total_size`
unchanged. -/
def insertEntry : Entry → List String → Nat → FileKind → Entry
  | e, [], _, _ => e
  | .file s, _ :: _, _, _ => .file s
  | .folder s d cs, [p], size, kind =>
    let oldC := lookupChild p cs
    let newC : Entry :=
      match kind, oldC with
      | .file, _ => .file size
      | .folder, some (.folder s2 d2 cs2) => .folder s2 d2 cs2
      | .folder, _ => .folder 0 0 []
    writeChild s d cs p oldC newC
  | .folder s d cs, p :: ps, size, kind =>
    let oldC := lookupChild p cs
    let base : Entry :=
      match oldC with
      | some (.folder s2 d2 cs2) => .folder s2 d2 cs2
      | _ => .folder 0 0 []
    let newC := insertEntry base ps size kind
    writeChild s d cs p oldC newC

/-- Modelled from the spec: `AggregateTree.delete(path_segments)`
(`src/state/files` is absent from `src/`).  `none` means `NotFound`;
otherwise the entry is removed from its parent's children and every
ancestor's size is decremented by the removed subtree's size and its
descendant count by the removed contribution. -/
def deleteEntry : Entry → List String → Option Entry
  | _, [] => none
  | .file _, _ :: _ => none
  | .folder s d cs, [p] =>
    match lookupChild p cs with
    | none => none
    | some c => some (.folder (s - contribSize c) (d - contribCount c) (removeChild p cs))
  | .folder s d cs, p :: ps =>
    match lookupChild p cs with
    | none => none
    | some c =>
      match deleteEntry c ps with
      | none => none
      | some c2 =>
        some (.folder ((s + contribSize c2) - contribSize c)
          ((d + contribCount c2) - contribCount c) (replaceChild p c2 cs))

/-- One mutation of the aggregate tree. -/
inductive TreeOp where
  | insert (path : List String) (size : Nat) (kind : FileKind)
  | delete (path : List String)

/-- Apply one mutation; a `NotFound` delete leaves the tree unchanged. -/
def applyTreeOp (e : Entry) : TreeOp → Entry
  | .insert p s k => insertEntry e p s k
  | .delete p => (deleteEntry e p).getD e

/-- The scan root: created empty with size 0 and 0 descendants. -/
def baseFolder : Entry := .folder 0 0 []

/-- Run a sequence of insert/delete operations from the empty root. -/
def runTreeOps (ops : List TreeOp) : Entry := ops.foldl applyTreeOp baseFolder

/-! ### Rollup lemmas -/

theorem childrenSize_append (cs : List (String × Entry)) (p : String) (e : Entry) :
    childrenSize (cs ++ [(p, e)]) = childrenSize cs + contribSize e := by
  simp [childrenSize]

theorem childrenCount_append (cs : List (String × Entry)) (p : String) (e : Entry) :
    childrenCount (cs ++ [(p, e)]) = childrenCount cs + contribCount e := by
  simp [childrenCount]

theorem childrenSize_replace (p : String) (e c : Entry) :
    ∀ cs, lookupChild p cs = some c →
      childrenSize (replaceChild p e cs) + contribSize c = childrenSize cs + contribSize e
  | [], h => by simp [lookupChild] at h
  | (q, ec) :: tl, h => by
    by_cases hq : q = p
    · simp only [lookupChild, if_pos hq] at h
      cases h
      simp [replaceChild, hq, childrenSize]
      omega
    · simp only [lookupChild, if_neg hq] at h
      have ih := childrenSize_replace p e c tl h
      simp [replaceChild, hq, childrenSize] at ih ⊢
      omega

theorem childrenCount_replace (p : String) (e c : Entry) :
    ∀ cs, lookupChild p cs = some c →
      childrenCount (replaceChild p e cs) + contribCount c = childrenCount cs + contribCount e
  | [], h => by simp [lookupChild] at h
  | (q, ec) :: tl, h => by
    by_cases hq : q = p
    · simp only [lookupChild, if_pos hq] at h
      cases h
      simp [replaceChild, hq, childrenCount]
      omega
    · simp only [lookupChild, if_neg hq] at h
      have ih := childrenCount_replace p e c tl h
      simp [replaceChild, hq, childrenCount] at ih ⊢
      omega

theorem childrenSize_remove (p : String) (c : Entry) :
    ∀ cs, lookupChild p cs = some c →
      childrenSize (removeChild p cs) + contribSize c = childrenSize cs
  | [], h => by simp [lookupChild] at h
  | (q, ec) :: tl, h => by
    by_cases hq : q = p
    · simp only [lookupChild, if_pos hq] at h
      cases h
      simp [removeChild, hq, childrenSize]
      omega
    · simp only [lookupChild, if_neg hq] at h
      have ih := childrenSize_remove p c tl h
      simp [removeChild, hq, childrenSize] at ih ⊢
      omega

theorem childrenCount_remove (p : String) (c : Entry) :
    ∀ cs, lookupChild p cs = some c →
      childrenCount (removeChild p cs) + contribCount c = childrenCount cs
  | [], h => by simp [lookupChild] at h
  | (q, ec) :: tl, h => by
    by_cases hq : q = p
    · simp only [lookupChild, if_pos hq] at h
      cases h
      simp [removeChild, hq, childrenCount]
      omega
    · simp only [lookupChild, if_neg hq] at h
      have ih := childrenCount_remove p c tl h
      simp [removeChild, hq, childrenCount] at ih ⊢
      omega

theorem childrenInv_lookup (p : String) (c : Entry) :
    ∀ cs, childrenInv cs = true → lookupChild p cs = some c → entryInv c = true
  | [], _, h => by simp [lookupChild] at h
  | (q, ec) :: tl, hinv, h => by
    simp only [childrenInv, Bool.and_eq_true] at hinv
    by_cases hq : q = p
    · simp only [lookupChild, if_pos hq] at h
      cases h
      exact hinv.1
    · simp only [lookupChild, if_neg hq] at h
      exact childrenInv_lookup p c tl hinv.2 h

theorem childrenInv_replace (p : String) (e : Entry) :
    ∀ cs, childrenInv cs = true → entryInv e = true → childrenInv (replaceChild p e cs) = true
  | [], _, _ => rfl
  | (q, ec) :: tl, hinv, he => by
    simp only [childrenInv, Bool.and_eq_true] at hinv
    by_cases hq : q = p
    · simp [replaceChild, hq, childrenInv, he, hinv.2]
    · simp [replaceChild, hq, childrenInv, hinv.1,
        childrenInv_replace p e tl hinv.2 he]

theorem childrenInv_remove (p : String) :
    ∀ cs, childrenInv cs = true → childrenInv (removeChild p cs) = true
  | [], _ => rfl
  | (q, ec) :: tl, hinv => by
    simp only [childrenInv, Bool.and_eq_true] at hinv
    by_cases hq : q = p
    · simp [removeChild, hq, hinv.2]
    · simp [removeChild, hq, childrenInv, hinv.1, childrenInv_remove p tl hinv.2]

theorem childrenInv_append (p : String) (e : Entry) :
    ∀ cs, childrenInv cs = true → entryInv e = true → childrenInv (cs ++ [(p, e)]) = true
  | [], _, he => by simp [childrenInv, he]
  | (q, ec) :: tl, hinv, he => by
    simp only [childrenInv, Bool.and_eq_true] at hinv
    simp [childrenInv, hinv.1, childrenInv_append p e tl hinv.2 he]

theorem entryInv_folder (s d : Nat) (cs : List (String × Entry)) :
    entryInv (.folder s d cs) = true ↔
      s = childrenSize cs ∧ d = childrenCount cs ∧ childrenInv cs = true := by
  simp [entryInv, Bool.and_eq_true, and_assoc]

theorem entryInv_write (s d : Nat) (cs : List (String × Entry)) (p : String) (newC : Entry)
    (hs : s = childrenSize cs) (hd : d = childrenCount cs)
    (hcs : childrenInv cs = true) (hn : entryInv newC = true) :
    entryInv (writeChild s d cs p (lookupChild p cs) newC) = true := by
  cases hl : lookupChild p cs with
  | none =>
    simp only [writeChild]
    rw [entryInv_folder]
    refine ⟨?_, ?_, childrenInv_append p newC cs hcs hn⟩
    · simp [childrenSize_append, hs]
    · simp [childrenCount_append, hd]
  | some c =>
    have h1 := childrenSize_replace p newC c cs hl
    have h2 := childrenCount_replace p newC c cs hl
    simp only [writeChild]
    rw [entryInv_folder]
    refine ⟨?_, ?_, childrenInv_replace p newC cs hcs hn⟩
    · omega
    · omega

theorem entryInv_insert (size : Nat) (kind : FileKind) :
    ∀ (path : List String) (e : Entry), entryInv e = true →
      entryInv (insertEntry e path size kind) = true
  | [], e, h => by simpa [insertEntry] using h
  | [p], e, h => by
    match e with
    | .file s => simpa [insertEntry] using h
    | .folder s d cs =>
      rw [entryInv_folder] at h
      obtain ⟨hs, hd, hcs⟩ := h
      have hn : entryInv
          (match kind, lookupChild p cs with
            | .file, _ => Entry.file size
            | .folder, some (.folder s2 d2 cs2) => .folder s2 d2 cs2
            | .folder, _ => .folder 0 0 []) = true := by
        cases kind with
        | file => rfl
        | folder =>
          cases hl : lookupChild p cs with
          | none => rfl
          | some c =>
            cases c with
            | file s2 => rfl
            | folder s2 d2 cs2 => exact childrenInv_lookup p _ cs hcs hl
      simpa only [insertEntry] using entryInv_write s d cs p _ hs hd hcs hn
  | p :: q :: ps, e, h => by
    match e with
    | .file s => simpa [insertEntry] using h
    | .folder s d cs =>
      rw [entryInv_folder] at h
      obtain ⟨hs, hd, hcs⟩ := h
      have hbase : entryInv
          (match lookupChild p cs with
            | some (.folder s2 d2 cs2) => Entry.folder s2 d2 cs2
            | _ => .folder 0 0 []) = true := by
        cases hl : lookupChild p cs with
        | none => rfl
        | some c =>
          cases c with
          | file s2 => rfl
          | folder s2 d2 cs2 => exact childrenInv_lookup p _ cs hcs hl
      have hn := entryInv_insert size kind (q :: ps) _ hbase
      simpa only [insertEntry] using entryInv_write s d cs p _ hs hd hcs hn

theorem entryInv_delete :
    ∀ (path : List String) (e e2 : Entry), entryInv e = true →
      deleteEntry e path = some e2 → entryInv e2 = true
  | [], _, _, _, h => by simp [deleteEntry] at h
  | _ :: _, .file s, _, _, h => by simp [deleteEntry] at h
  | [p], .folder s d cs, e2, hinv, h => by
    rw [entryInv_folder] at hinv
    obtain ⟨hs, hd, hcs⟩ := hinv
    cases hl : lookupChild p cs with
    | none => simp [deleteEntry, hl] at h
    | some c =>
      simp only [deleteEntry, hl] at h
      cases h
      have h1 := childrenSize_remove p c cs hl
      have h2 := childrenCount_remove p c cs hl
      rw [entryInv_folder]
      refine ⟨by omega, by omega, childrenInv_remove p cs hcs⟩
  | p :: q :: ps, .folder s d cs, e2, hinv, h => by
    rw [entryInv_folder] at hinv
    obtain ⟨hs, hd, hcs⟩ := hinv
    cases hl : lookupChild p cs with
    | none => simp [deleteEntry, hl] at h
    | some c =>
      cases hdel : deleteEntry c (q :: ps) with
      | none => simp [deleteEntry, hl, hdel] at h
      | some c2 =>
        simp only [deleteEntry, hl, hdel] at h
        cases h
        have hc2 := entryInv_delete (q :: ps) c c2
          (childrenInv_lookup p c cs hcs hl) hdel
        have h1 := childrenSize_replace p c2 c cs hl
        have h2 := childrenCount_replace p c2 c cs hl
        rw [entryInv_folder]
        refine ⟨by omega, by omega, childrenInv_replace p c2 cs hcs hc2⟩

theorem entryInv_foldl :
    ∀ (ops : List TreeOp) (e : Entry), entryInv e = true →
      entryInv (ops.foldl applyTreeOp e) = true
  | [], _, h => h
  | op :: rest, e, h => by
    apply entryInv_foldl rest
    cases op with
    | insert p s k => exact entryInv_insert s k p e h
    | delete p =>
      cases hdel : deleteEntry e p with
      | none => simpa [applyTreeOp, hdel] using h
      | some e2 =>
        simpa [applyTreeOp, hdel] using entryInv_delete p e e2 h hdel

/-- C1: after every sequence of insert and delete operations applied to the
aggregate tree from the empty scan root, every Folder node's size equals the
sum of its immediate children's sizes and its descendant count equals the sum
over children of (1 + child.descendants if the child is a Folder else 1);
quantifying over all operation sequences covers the state after each
operation, so no observable state violates the rollup invariant. -/
theorem aggregate_tree_rollup_invariant (ops : List TreeOp) :
    entryInv (runTreeOps ops) = true :=
  entryInv_foldl ops baseFolder rfl

/-! ## The disk scanner thread (claims C3 and C7), from `main.rs` -/

/-- Metadata of a discovered entry (stands in for the `fs::Metadata`
value carried inside the instruction). -/
structure EntryMetadata where
  size : Nat
  kind : FileKind
deriving DecidableEq

/-- One item yielded by the walker iterator in `main.rs`: either a
directory entry whose `metadata()` call may itself fail (`none`), or an
erroneous entry. -/
inductive WalkEntry where
  | ok (metadata : Option EntryMetadata) (path : List String)
  | err
deriving DecidableEq

/-- The instructions sent over the instruction channel (`messages.rs` is
outside `src/`; only the variants named in `main.rs` are embedded). -/
inductive Instruction where
  | addEntryToBaseFolder (metadata : EntryMetadata) (path : List String)
  | incrementFailedToRead
  | startUi
  | toggleScanningVisualIndicator
  | renderAndUpdateBoard
  | keypress (code : Nat)
  | resetUiMode
  | render
deriving DecidableEq

/-- Embeds the per-entry match of the `hd_scanner` loop
(`main.rs` lines 203–217): an entry with readable metadata becomes
`AddEntryToBaseFolder`, a metadata failure or an erroneous entry becomes
`IncrementFailedToRead`. -/
def scanInstruction : WalkEntry → Instruction
  | .ok (some m) p => .addEntryToBaseFolder m p
  | .ok none _ => .incrementFailedToRead
  | .err => .incrementFailedToRead

/-- An entry whose metadata could not be obtained, or whose directory
entry itself was an error. -/
def isReadError : WalkEntry → Bool
  | .ok (some _) _ => false
  | .ok none _ => true
  | .err => true

/-- Embeds the `hd_scanner` scanning loop (`main.rs` lines 193–223):
one instruction per walked entry; the channel sends are modelled as
accepted, since the only send failure in the code means the consumer
has shut down (it aborts the scan, and is not a read error). -/
def hdScannerLoop : List WalkEntry → List Instruction
  | [] => []
  | e :: rest => scanInstruction e :: hdScannerLoop rest

/-- Embeds the whole `hd_scanner` body: the loop followed by the
`StartUi` instruction (`main.rs` line 224). -/
def hdScannerRun (entries : List WalkEntry) : List Instruction :=
  hdScannerLoop entries ++ [.startUi]

theorem hdScannerLoop_eq_map (entries : List WalkEntry) :
    hdScannerLoop entries = entries.map scanInstruction := by
  induction entries with
  | nil => rfl
  | cons e rest ih => simp [hdScannerLoop, ih]

theorem scanInstruction_of_readError (e : WalkEntry) (h : isReadError e = true) :
    scanInstruction e = .incrementFailedToRead := by
  cases e with
  | ok m p => cases m with
    | none => rfl
    | some md => simp [isReadError] at h
  | err => rfl

theorem hdScannerLoop_count (entries : List WalkEntry) :
    (hdScannerLoop entries).count Instruction.incrementFailedToRead
      = entries.countP (fun x => isReadError x) := by
  induction entries with
  | nil => rfl
  | cons e rest ih =>
    cases e with
    | ok m p =>
      cases m with
      | none => simp [hdScannerLoop, scanInstruction, isReadError, List.count_cons,
          List.countP_cons, ih]
      | some md => simp [hdScannerLoop, scanInstruction, isReadError, List.count_cons,
          List.countP_cons, ih]
    | err => simp [hdScannerLoop, scanInstruction, isReadError, List.count_cons,
        List.countP_cons, ih]

/-- C3: for every walk entry whose metadata cannot be obtained (or whose
directory entry is itself an error) the scanner sends exactly one
`IncrementFailedToRead` instruction in that entry's position — in
particular no entry-adding instruction for it — and it continues
scanning the remaining entries (one instruction per entry plus the final
`StartUi`); the total count of `IncrementFailedToRead` equals the number
of failing entries, so a read error is never fatal and is surfaced only
as a counter. -/
theorem scanner_read_error_is_counted (entries : List WalkEntry) (i : Nat) (e : WalkEntry)
    (hi : entries[i]? = some e) (he : isReadError e = true) :
    (hdScannerRun entries)[i]? = some Instruction.incrementFailedToRead ∧
    (hdScannerRun entries).length = entries.length + 1 ∧
    (hdScannerRun entries).count Instruction.incrementFailedToRead
      = entries.countP (fun x => isReadError x) := by
  have hlen : i < entries.length := by
    by_contra hlt
    rw [List.getElem?_eq_none (by omega)] at hi
    exact Option.noConfusion hi
  refine ⟨?_, ?_, ?_⟩
  · rw [hdScannerRun, hdScannerLoop_eq_map]
    rw [List.getElem?_append_left (by simpa using hlen)]
    rw [List.getElem?_map, hi]
    simp [scanInstruction_of_readError e he]
  · simp [hdScannerRun, hdScannerLoop_eq_map]
  · simp [hdScannerRun, hdScannerLoop_count]

/-- Witness for C3: a walk with a single erroneous entry yields exactly
`[IncrementFailedToRead, StartUi]`. -/
theorem scanner_read_error_is_counted_witness :
    (hdScannerRun [WalkEntry.err])[0]? = some Instruction.incrementFailedToRead ∧
    (hdScannerRun [WalkEntry.err]).length = [WalkEntry.err].length + 1 ∧
    (hdScannerRun [WalkEntry.err]).count Instruction.incrementFailedToRead
      = [WalkEntry.err].countP (fun x => isReadError x) :=
  scanner_read_error_is_counted [WalkEntry.err] 0 WalkEntry.err rfl rfl

/-- Options of the external walker's builder. -/
structure WalkDirOptions where
  usesRayonPool : Bool
  skipsHidden : Bool
  followsLinks : Bool
deriving DecidableEq

/-- Modelled from the external walker's documented defaults for
`WalkDir::new` (skips hidden entries, does not follow links, parallel
pool). -/
def walkDirNew : WalkDirOptions :=
  { usesRayonPool := true, skipsHidden := true, followsLinks := false }

/-- Builder method: choose the parallelism mode. -/
def WalkDirOptions.parallelism (o : WalkDirOptions) (multi : Bool) : WalkDirOptions :=
  { o with usesRayonPool := multi }

/-- Builder method: set whether hidden entries are skipped. -/
def WalkDirOptions.skipHidden (o : WalkDirOptions) (b : Bool) : WalkDirOptions :=
  { o with skipsHidden := b }

/-- Builder method: set whether symbolic links are followed. -/
def WalkDirOptions.followLinks (o : WalkDirOptions) (b : Bool) : WalkDirOptions :=
  { o with followsLinks := b }

/-- Embeds the builder chain of the `hd_scanner` thread
(`main.rs` lines 193–201): `WalkDir::new(&path).parallelism(..)
.skip_hidden(false).follow_links(false)`. -/
def scannerWalkOptions (multi : Bool) : WalkDirOptions :=
  ((walkDirNew.parallelism multi).skipHidden false).followLinks false

/-- A filesystem object the walker could report, tagged with whether it
is reachable only through a symbolic link. -/
structure WalkCandidate where
  viaSymlink : Bool
  entry : WalkEntry
deriving DecidableEq

/-- Modelled from the spec: the external walker's contract — "no
symbolic-link traversal (external walker excludes it)" — an entry
reachable only through a symbolic link is reported only when
link-following is enabled. -/
def walkerReports (candidates : List WalkCandidate) (o : WalkDirOptions) :
    List WalkCandidate :=
  candidates.filter (fun c => o.followsLinks || !c.viaSymlink)

/-- C7: the walker producing discovery events is configured with
link-following disabled in every run (whatever the parallelism mode),
so no entry reachable only through a symbolic link is reported. -/
theorem walker_never_follows_symlinks (multi : Bool) (candidates : List WalkCandidate)
    (c : WalkCandidate) (h : c ∈ walkerReports candidates (scannerWalkOptions multi)) :
    (scannerWalkOptions multi).followsLinks = false ∧ c.viaSymlink = false := by
  refine ⟨rfl, ?_⟩
  have hp := (List.mem_filter.mp h).2
  simpa [scannerWalkOptions, walkDirNew, WalkDirOptions.parallelism,
    WalkDirOptions.skipHidden, WalkDirOptions.followLinks] using hp

/-- Witness for C7: a concrete walk reporting one non-symlink entry. -/
theorem walker_never_follows_symlinks_witness :
    (scannerWalkOptions true).followsLinks = false ∧
    (⟨false, WalkEntry.err⟩ : WalkCandidate).viaSymlink = false :=
  walker_never_follows_symlinks true [⟨false, WalkEntry.err⟩] ⟨false, WalkEntry.err⟩
    (by decide)

/-! ## Startup and exit codes (claim C6), from `main.rs` -/

/-- Results of the external calls `try_main` performs. -/
structure StartupEnv where
  enableRawModeOk : Bool
  folderArg : Option String
  currentDirResult : Option String
  isDir : String → Bool
  disableRawModeOk : Bool

/-- Embeds `get_stdout` (`main.rs` lines 72–74): it always returns
`Ok(io::stdout())`. -/
def getStdoutResult : Except Unit Unit := .ok ()

/-- Embeds `try_main` (`main.rs` lines 76–103), parameterized over the
result of `get_stdout` exactly as the source matches on it; the
external fallible calls (`enable_raw_mode`, `env::current_dir`,
`disable_raw_mode`) and the `is_dir` check are inputs. -/
def tryMainWith (stdoutRes : Except Unit Unit) (env : StartupEnv) : Except String Unit :=
  match stdoutRes with
  | .ok _ =>
    if env.enableRawModeOk then
      match (match env.folderArg with
             | some f => some f
             | none => env.currentDirResult) with
      | some folder =>
        if env.isDir folder then
          if env.disableRawModeOk then .ok () else .error ("raw mode error")
        else .error ("Folder " ++ folder ++ " does not exist")
      | none => .error ("current dir error")
    else .error ("raw mode error")
  | .error _ => .error ("Failed to get stdout: are you trying to pipe diskonaut?")

/-- Embeds `main` (`main.rs` lines 66–71) over a `get_stdout` result:
on `Err` it prints the error message and exits with code 2, otherwise
it exits normally with code 0.  Returns (exit code, printed error). -/
def mainRunWith (stdoutRes : Except Unit Unit) (env : StartupEnv) : Nat × Option String :=
  match tryMainWith stdoutRes env with
  | .error e => (2, some ("Error: " ++ e))
  | .ok _ => (0, none)

/-- Embeds `main`: the actual run uses the real `get_stdout`. -/
def mainRun (env : StartupEnv) : Nat × Option String :=
  mainRunWith getStdoutResult env

/-- C6: the process exits with code 0 on a normal run and with the
non-zero code 2 on a startup failure; the failure cases include the
target folder not resolving to an existing directory and the
stdout/terminal path being unavailable (the `Err` arm of the
`get_stdout` match and a raw-mode failure), and every failure prints an
error message before exiting. -/
theorem startup_failures_exit_nonzero (env : StartupEnv) :
    (tryMainWith getStdoutResult env = .ok () → mainRun env = (0, none)) ∧
    (∀ f, env.folderArg = some f → env.isDir f = false →
      (mainRun env).1 = 2 ∧ ((mainRun env).2).isSome = true) ∧
    ((mainRunWith (.error ()) env).1 = 2 ∧ ((mainRunWith (.error ()) env).2).isSome = true) ∧
    (env.enableRawModeOk = false →
      (mainRun env).1 = 2 ∧ ((mainRun env).2).isSome = true) ∧
    ((mainRun env).1 ≠ 0 → ((mainRun env).2).isSome = true) := by
  refine ⟨?_, ?_, ?_, ?_, ?_⟩
  · intro h
    simp [mainRun, mainRunWith, h]
  · intro f hf hd
    cases hr : env.enableRawModeOk with
    | false => simp [mainRun, mainRunWith, tryMainWith, getStdoutResult, hr]
    | true => simp [mainRun, mainRunWith, tryMainWith, getStdoutResult, hr, hf, hd]
  · simp [mainRunWith, tryMainWith]
  · intro h
    simp [mainRun, mainRunWith, tryMainWith, getStdoutResult, h]
  · intro h
    rcases hres : tryMainWith getStdoutResult env with e | u
    · simp [mainRun, mainRunWith, hres]
    · simp [mainRun, mainRunWith, hres] at h ⊢

/-- A run whose target folder argument is not a directory. -/
def invalidFolderEnv : StartupEnv :=
  { enableRawModeOk := true,
    folderArg := some ("x"),
    currentDirResult := some ("."),
    isDir := fun _ => false,
    disableRawModeOk := true }

/-- Witness for C6: a run whose target folder is not a directory exits
with code 2 and a printed message. -/
theorem startup_failures_exit_nonzero_witness :
    (mainRun invalidFolderEnv).1 = 2 ∧ ((mainRun invalidFolderEnv).2).isSome = true :=
  (startup_failures_exit_nonzero invalidFolderEnv).2.1 "x" rfl rfl

/-! ## Tiles, the board and the bottom line (claims C8, C9, C10) -/

/-- A rectangle in terminal cells (`tui::layout::Rect`, with `u16`
fields; modelled over `Nat`, with the `u16` subtractions that can
underflow made explicit where a claim concerns them). -/
structure Rect where
  x : Nat
  y : Nat
  width : Nat
  height : Nat
deriving DecidableEq

/-- Modelled from the spec: one child of the current directory as fed to
the packer — name, size, kind and (for a Folder) descendant count
(`src/state/tiles` is absent from `src/`). -/
structure ChildSpec where
  name : String
  size : Nat
  kind : FileKind
  descendants : Option Nat
deriving DecidableEq

/-- Modelled from the spec: a rendering-ready projection of one child
Entry with its assigned rectangle (`src/state/tiles` is absent from
`src/`); `descendants` is `some` exactly for Folder tiles. -/
structure Tile where
  x : Nat
  y : Nat
  width : Nat
  height : Nat
  name : String
  size : Nat
  fileType : FileKind
  descendants : Option Nat
deriving DecidableEq

/-- Modelled from the spec: the child-spec projection of an Entry; a
Folder carries its descendant count, a File carries none. -/
def childOfEntry (name : String) (e : Entry) : ChildSpec :=
  match e with
  | .file s => { name := name, size := s, kind := .file, descendants := none }
  | .folder s d _ => { name := name, size := s, kind := .folder, descendants := some d }

/-- A tile assembled from a child spec and its packed rectangle. -/
def tileOfChild (c : ChildSpec) (x y width height : Nat) : Tile :=
  { x := x, y := y, width := width, height := height, name := c.name,
    size := c.size, fileType := c.kind, descendants := c.descendants }

/-- Modelled from the spec: the tile projection of one child Entry at an
assigned rectangle. -/
def tileOfEntry (name : String) (e : Entry) (x y width height : Nat) : Tile :=
  tileOfChild (childOfEntry name e) x y width height

/-- Modelled from the spec: `DisplaySize` humanization
(`src/ui/format.rs` is absent from `src/`); the claims do not depend on
the rendered text, so a byte count renders as its decimal digits. -/
def displaySize (n : Nat) : String := toString n

/-- Embeds `render_currently_selected` (`bottom_line.rs` lines 10–46).
The candidate lines are built eagerly — for a Folder this evaluates
`descendants.expect("a folder should have descendants")` — and the
first line shorter than `max_len` is written at column 1.  The outer
`none` models the `expect` panic; the inner option is the line written,
if any fits. -/
def renderCurrentlySelected (t : Tile) (maxLen : Nat) : Option (Option String) :=
  let fileName := t.name
  let size := displaySize t.size
  match t.fileType with
  | .file =>
    let lines := ["SELECTED: " ++ fileName ++ " (" ++ size ++ ")",
                  "SELECTED: " ++ fileName,
                  fileName]
    some (lines.find? fun l => l.length < maxLen)
  | .folder =>
    match t.descendants with
    | none => none
    | some d =>
      let lines :=
        ["SELECTED: " ++ fileName ++ " (" ++ size ++ ", " ++ toString d ++ " files)",
         "SELECTED: " ++ fileName ++ " (" ++ size ++ ")",
         "SELECTED: " ++ fileName,
         fileName]
      some (lines.find? fun l => l.length < maxLen)

/-- A folder tile stripped of its descendant count; such a tile is never
produced by the tile projection. -/
def orphanFolderTile : Tile :=
  { x := 0, y := 0, width := 1, height := 1, name := "f", size := 0,
    fileType := .folder, descendants := none }

/-- C8: every tile projected from a Folder entry carries a descendant
count, and under that precondition the
`expect("a folder should have descendants")` branch of
`render_currently_selected` cannot panic; for a folder tile without a
descendant count the render does panic. -/
theorem folder_tile_descendants_present (n : String) (e : Entry) (x y w h : Nat)
    (t : Tile) (len : Nat) :
    ((tileOfEntry n e x y w h).fileType = FileKind.folder →
      ((tileOfEntry n e x y w h).descendants).isSome = true) ∧
    (t.fileType = FileKind.folder → (t.descendants).isSome = true →
      (renderCurrentlySelected t len).isSome = true) ∧
    (renderCurrentlySelected orphanFolderTile len = none) := by
  refine ⟨?_, ?_, rfl⟩
  · intro hf
    cases e with
    | file s => simp [tileOfEntry, childOfEntry, tileOfChild] at hf
    | folder s d cs => simp [tileOfEntry, childOfEntry, tileOfChild]
  · intro hf hd
    cases ht : t.fileType with
    | file => rw [ht] at hf; exact absurd hf (by simp)
    | folder =>
      cases hds : t.descendants with
      | none => rw [hds] at hd; simp at hd
      | some d => simp [renderCurrentlySelected, ht, hds]

/-- A concrete folder entry tile used to instantiate C8. -/
def sampleFolderTile : Tile := tileOfEntry "d" (.folder 5 2 []) 0 0 3 2

/-- Witness for C8 at a concrete folder tile. -/
theorem folder_tile_descendants_present_witness :
    ((sampleFolderTile).descendants).isSome = true ∧
    (renderCurrentlySelected sampleFolderTile 80).isSome = true ∧
    renderCurrentlySelected orphanFolderTile 80 = none :=
  ⟨(folder_tile_descendants_present "d" (.folder 5 2 []) 0 0 3 2 sampleFolderTile 80).1 rfl,
   (folder_tile_descendants_present "d" (.folder 5 2 []) 0 0 3 2 sampleFolderTile 80).2.1
     rfl rfl,
   (folder_tile_descendants_present "d" (.folder 5 2 []) 0 0 3 2 sampleFolderTile 80).2.2⟩

/-- The board as the renderer consumes it (`src/state/tiles` is absent
from `src/`; fields modelled from the spec and from the uses in
`display.rs`: the packed tiles, the optional small-items region, the
selection, the zoom level, plus the children and stored area the board
repacks from). -/
structure Board where
  children : List ChildSpec
  area : Option Rect
  tiles : List Tile
  unrenderableTileCoordinates : Option (Nat × Nat)
  selectedIndex : Option Nat
  zoomLevel : Nat
deriving DecidableEq

/-- Embeds `board.currently_selected()` as used by `display.rs`: the
tile at the selected index, when any. -/
def Board.currentlySelected (b : Board) : Option Tile :=
  b.selectedIndex.bind fun i => b.tiles[i]?

/-- A board with nothing on it. -/
def emptyBoard : Board :=
  { children := [], area := none, tiles := [], unrenderableTileCoordinates := none,
    selectedIndex := none, zoomLevel := 0 }

/-- The UI modes dispatched by `Display::render` (`display.rs`). -/
inductive UiMode where
  | loading
  | normal
  | screenTooSmall
  | deleteFile (fileToDelete : String)
  | errorMessage (message : String)
  | exiting (appLoaded : Bool)
  | warningMessage (message : String)
deriving DecidableEq

/-- The one field of `UiEffects` the bottom line consumes. -/
structure UiEffects where
  lastReadPath : Option String
deriving DecidableEq

/-- The `BottomLine` widget state (`bottom_line.rs` lines 117–149). -/
structure BottomLine where
  hideDelete : Bool
  hideSmallFilesLegend : Bool
  currentlySelected : Option Tile
  lastReadPath : Option String
deriving DecidableEq

/-- Embeds `BottomLine::new`. -/
def BottomLine.new : BottomLine :=
  { hideDelete := false, hideSmallFilesLegend := false, currentlySelected := none,
    lastReadPath := none }

/-- Embeds the `hide_delete` builder method. -/
def BottomLine.withHideDelete (bl : BottomLine) : BottomLine :=
  { bl with hideDelete := true }

/-- Embeds the `hide_small_files_legend` builder method. -/
def BottomLine.withHideSmallFilesLegend (bl : BottomLine) (b : Bool) : BottomLine :=
  { bl with hideSmallFilesLegend := b }

/-- Embeds the `currently_selected` builder method. -/
def BottomLine.withCurrentlySelected (bl : BottomLine) (t : Option Tile) : BottomLine :=
  { bl with currentlySelected := t }

/-- Embeds the `last_read_path` builder method. -/
def BottomLine.withLastReadPath (bl : BottomLine) (p : Option String) : BottomLine :=
  { bl with lastReadPath := p }

/-- Embeds the loading-style `BottomLine` construction of
`Display::render` (the Loading, WarningMessage and non-loaded Exiting
arms of `display.rs`): selection, last read path, `hide_delete`, and
`hide_small_files_legend(board.unrenderable_tile_coordinates.is_none())`. -/
def loadingBottomLine (board : Board) (effects : UiEffects) : BottomLine :=
  BottomLine.new.withCurrentlySelected board.currentlySelected
    |>.withLastReadPath effects.lastReadPath
    |>.withHideDelete
    |>.withHideSmallFilesLegend board.unrenderableTileCoordinates.isNone

/-- Embeds the normal-style `BottomLine` construction of
`Display::render` (the Normal, DeleteFile, ErrorMessage and loaded
Exiting arms of `display.rs`): selection and
`hide_small_files_legend(board.unrenderable_tile_coordinates.is_none())`. -/
def normalBottomLine (board : Board) : BottomLine :=
  BottomLine.new.withCurrentlySelected board.currentlySelected
    |>.withHideSmallFilesLegend board.unrenderableTileCoordinates.isNone

/-- Embeds the `BottomLine` construction of each `Display::render` match
arm (`display.rs` lines 90–314): `ScreenTooSmall` draws no bottom line;
`Exiting` picks the normal or loading form by `app_loaded`. -/
def bottomLineWidget (mode : UiMode) (board : Board) (effects : UiEffects) :
    Option BottomLine :=
  match mode with
  | .loading => some (loadingBottomLine board effects)
  | .normal => some (normalBottomLine board)
  | .screenTooSmall => none
  | .deleteFile _ => some (normalBottomLine board)
  | .errorMessage _ => some (normalBottomLine board)
  | .exiting appLoaded =>
    if appLoaded then some (normalBottomLine board)
    else some (loadingBottomLine board effects)
  | .warningMessage _ => some (loadingBottomLine board effects)

/-- The bottom line a mode draws, defaulting to a fresh widget for the
one mode that draws none. -/
def bottomLineWidgetD (mode : UiMode) (board : Board) (effects : UiEffects) : BottomLine :=
  (bottomLineWidget mode board effects).getD BottomLine.new

/-- The small-files legend text of `BottomLine::render`. -/
def smallFilesLegend : String := "(x = Small files)"

/-- Embeds `small_files_len` of `BottomLine::render` (`bottom_line.rs`
lines 154–158): 0 when the legend is hidden, the legend's character
count otherwise. -/
def smallFilesLen (hide : Bool) : Nat := if hide then 0 else smallFilesLegend.length

/-- Embeds the legend condition of `BottomLine::render`
(`bottom_line.rs` line 169): the legend is painted exactly when
`hide_small_files_legend` is false. -/
def legendRendered (bl : BottomLine) : Bool := !bl.hideSmallFilesLegend

/-- Embeds `max_status_len = area.width - small_files_len - 1`
(`bottom_line.rs` line 159), over `Nat`; the `u16` underflow of this
subtraction is treated by `bottomLineUnderflows`. -/
def maxStatusLen (bl : BottomLine) (areaWidth : Nat) : Nat :=
  areaWidth - smallFilesLen bl.hideSmallFilesLegend - 1

/-- Embeds the three `u16` subtractions of `BottomLine::render`
(`bottom_line.rs` lines 159–162 and 172):
`max_status_len = area.width - small_files_len - 1`,
`max_controls_len = area.width - 1`, and
`status_line_y = area.y + area.height - 2` (the legend x position
repeats the first expression).  True when some subtraction underflows
(a panic in debug builds). -/
def bottomLineUnderflows (hide : Bool) (area : Rect) : Bool :=
  decide (area.width < smallFilesLen hide + 1) ||
  decide (area.width < 1) ||
  decide (area.y + area.height < 2)

/-- C9: in every UI mode that draws the bottom line (all but
ScreenTooSmall) the small-files legend is rendered if and only if the
board's `unrenderable_tile_coordinates` is `Some`; when it is `None` the
legend is hidden and the status text gets the full width minus the
one-cell margin. -/
theorem small_files_legend_iff_region (mode : UiMode) (board : Board)
    (effects : UiEffects) (w : Nat) (h : mode ≠ UiMode.screenTooSmall) :
    (bottomLineWidget mode board effects).isSome = true ∧
    legendRendered (bottomLineWidgetD mode board effects)
      = board.unrenderableTileCoordinates.isSome ∧
    (board.unrenderableTileCoordinates = none →
      maxStatusLen (bottomLineWidgetD mode board effects) w = w - 1) := by
  obtain ⟨ch, ar, ti, unr, sel, zl⟩ := board
  cases unr with
  | none =>
    cases mode with
    | loading => exact ⟨rfl, rfl, fun _ => rfl⟩
    | normal => exact ⟨rfl, rfl, fun _ => rfl⟩
    | screenTooSmall => exact absurd rfl h
    | deleteFile f => exact ⟨rfl, rfl, fun _ => rfl⟩
    | errorMessage m => exact ⟨rfl, rfl, fun _ => rfl⟩
    | exiting appLoaded => cases appLoaded <;> exact ⟨rfl, rfl, fun _ => rfl⟩
    | warningMessage m => exact ⟨rfl, rfl, fun _ => rfl⟩
  | some c =>
    cases mode with
    | loading => exact ⟨rfl, rfl, fun hn => by simp at hn⟩
    | normal => exact ⟨rfl, rfl, fun hn => by simp at hn⟩
    | screenTooSmall => exact absurd rfl h
    | deleteFile f => exact ⟨rfl, rfl, fun hn => by simp at hn⟩
    | errorMessage m => exact ⟨rfl, rfl, fun hn => by simp at hn⟩
    | exiting appLoaded => cases appLoaded <;> exact ⟨rfl, rfl, fun hn => by simp at hn⟩
    | warningMessage m => exact ⟨rfl, rfl, fun hn => by simp at hn⟩

/-- Witness for C9 in Normal mode on an empty board (no small-items
region: legend hidden, full width minus one for the status line). -/
theorem small_files_legend_iff_region_witness :
    (bottomLineWidget UiMode.normal emptyBoard ⟨none⟩).isSome = true ∧
    legendRendered (bottomLineWidgetD UiMode.normal emptyBoard ⟨none⟩)
      = emptyBoard.unrenderableTileCoordinates.isSome ∧
    (emptyBoard.unrenderableTileCoordinates = none →
      maxStatusLen (bottomLineWidgetD UiMode.normal emptyBoard ⟨none⟩) 40 = 40 - 1) :=
  small_files_legend_iff_region UiMode.normal emptyBoard ⟨none⟩ 40 (by simp)

/-- An area of height 1 sitting one row down: the claimed minimum
`height ≥ 2` does not hold for it, yet nothing underflows. -/
def shortRect : Rect := { x := 0, y := 1, width := 1, height := 1 }

/-- Counterexample to C10 as stated: with the legend hidden,
`width = 1` meets the claimed width minimum while `height = 1` violates
the claimed `height ≥ 2` minimum, yet no subtraction of
`BottomLine::render` underflows on this area, because
`status_line_y = area.y + area.height - 2` depends on `y + height`,
not on `height` alone. -/
theorem bottom_line_underflow_claim_false :
    bottomLineUnderflows true shortRect = false ∧ shortRect.height < 2 := by
  constructor
  · rfl
  · decide

/-- C10 (amended): `BottomLine::render` is free of `u16` underflow
exactly when `area.width ≥ 18` if the small-files legend is shown
(`area.width ≥ 1` otherwise) and `area.y + area.height ≥ 2`; the
claimed `area.height ≥ 2` is sufficient for the latter but not
necessary when `area.y ≥ 1`. -/
theorem bottom_line_underflow_characterization (hide : Bool) (r : Rect) :
    bottomLineUnderflows hide r = false ↔
      (smallFilesLen hide + 1 ≤ r.width ∧ 2 ≤ r.y + r.height) := by
  cases hide <;> simp [bottomLineUnderflows, smallFilesLen, smallFilesLegend] <;> omega

/-! ## The packer, `Board::change_area` and `Display::render` (claim C2) -/

/-- Modelled from the spec: the tile packer (`src/state/tiles` is absent
from `src/`).  Places the children in one strip of the viewport with
widths proportional to size (`viewport_area * child.size /
sum(children.size)` reduced to the width axis) and the last tile
absorbing the rounding error so the strip exactly tiles the viewport;
children whose rounded rectangle falls below the one-cell visibility
floor are folded into the small-items region rather than placed.  The
squarified row-splitting heuristic is reduced to a single strip: the
claims using the packer depend only on its being a deterministic
function of (children, viewport) that assigns viewport-dependent
rectangles. -/
def packStrip (vp : Rect) (total : Nat) : Nat → List ChildSpec → List Tile
  | _, [] => []
  | x, [c] => [tileOfChild c x vp.y ((vp.x + vp.width) - x) vp.height]
  | x, c :: c2 :: rest =>
    let w := if total = 0 then 0 else vp.width * c.size / total
    tileOfChild c x vp.y w vp.height :: packStrip vp total (x + w) (c2 :: rest)

/-- Modelled from the spec: `pack(children, viewport)`; an empty
children set or a degenerate viewport yields no tiles and no
small-items region, otherwise the strip layout with sub-one-cell tiles
folded into the small-items region. -/
def pack (children : List ChildSpec) (vp : Rect) : List Tile × Option (Nat × Nat) :=
  if vp.width = 0 || vp.height = 0 || children.isEmpty then ([], none)
  else
    let total := (children.map fun c => c.size).sum
    let placed := packStrip vp total vp.x children
    (placed.filter (fun t => decide (0 < t.width)),
     if placed.any (fun t => decide (t.width = 0)) then some (vp.x, vp.y) else none)

/-- Modelled from the spec: the board rebuild (spec 4.3): repack the
children into the new area, re-anchor the selection to the tile with
the previously selected name when still present, else clamp to 0 when
any tiles exist, else clear it. -/
def Board.repack (b : Board) (area : Rect) : Board :=
  let packed := pack b.children area
  let tiles := packed.1
  let sel :=
    match b.currentlySelected with
    | some t =>
      match tiles.findIdx? (fun t2 => t2.name = t.name) with
      | some j => some j
      | none => if tiles.isEmpty then none else some 0
    | none => if tiles.isEmpty then none else some 0
  { b with area := some area,
           tiles := tiles,
           unrenderableTileCoordinates := packed.2,
           selectedIndex := sel }

/-- Modelled from the spec: `Board::change_area` (`src/state/tiles` is
absent from `src/`; per spec 3 the board is "rebuilt whenever the
viewport resizes"): when the given area differs from the stored one the
board is repacked, otherwise it is left untouched. -/
def Board.changeArea (b : Board) (area : Rect) : Board :=
  if b.area = some area then b else b.repack area

/-- Modelled from the external layout engine for the constraint set
`[Length 1, Min 10, Length 2]` used by `Display::render`: the title
takes the top row, the bottom line the last two rows, and the grid the
remainder (`Nat` truncation for degenerate screens). -/
def displayChunks (screen : Rect) : Rect × Rect × Rect :=
  ({ x := screen.x, y := screen.y, width := screen.width, height := 1 },
   { x := screen.x, y := screen.y + 1, width := screen.width, height := screen.height - 3 },
   { x := screen.x, y := screen.y + screen.height - 2, width := screen.width, height := 2 })

/-- Embeds the grid-region adjustment of `Display::render`
(`display.rs` lines 85–88): `chunks[1].width -= 1; chunks[1].height -= 1`. -/
def gridRegion (screen : Rect) : Rect :=
  let c := (displayChunks screen).2.1
  { c with width := c.width - 1, height := c.height - 1 }

/-- Embeds the board effect of `Display::render` (`display.rs` line 89):
every render pass calls `board.change_area(&chunks[1])` on the region
derived from the current screen before drawing the widgets. -/
def displayRenderBoard (b : Board) (screen : Rect) : Board :=
  b.changeArea (gridRegion screen)

/-- A screen of 80×24 cells. -/
def screen80 : Rect := { x := 0, y := 0, width := 80, height := 24 }

/-- A narrower screen of 40×24 cells. -/
def screen40 : Rect := { x := 0, y := 0, width := 40, height := 24 }

/-- A single 100-byte file child. -/
def oneFileChild : ChildSpec :=
  { name := "a", size := 100, kind := .file, descendants := none }

/-- A board holding one 100-byte file, packed for the 80×24 screen. -/
def boardOneFile : Board :=
  Board.repack { emptyBoard with children := [oneFileChild] } (gridRegion screen80)

/-- Counterexample to C2 as stated: `Display::render` mutates the board
through `board.change_area(&chunks[1])` — rendering the board packed for
the 80×24 screen on a 40×24 screen repacks it, so its tiles are not the
same before and after the render pass (the sole tile's width changes
from 79 to 39). -/
theorem render_pass_changes_layout :
    displayRenderBoard boardOneFile screen40 ≠ boardOneFile := fun hEq =>
  absurd (congrArg (fun b => b.tiles.map fun t => t.width) hEq) (by decide)

/-- C2 (amended): `Display::render` consumes finished geometry except
for the one mutation it performs, `board.change_area` on the grid region
derived from the current screen: when that region equals the board's
stored area the render pass leaves the board — tiles, rectangles,
small-items region and selection — unchanged; only when the region
differs (first render or resize) is the layout recomputed, by the
packer. -/
theorem render_pass_preserves_layout_when_area_unchanged (b : Board) (screen : Rect)
    (h : b.area = some (gridRegion screen)) :
    displayRenderBoard b screen = b := by
  simp [displayRenderBoard, Board.changeArea, h]

/-- Witness for C2 (amended): rendering the board packed for the 80×24
screen on that same screen changes nothing. -/
theorem render_pass_preserves_layout_when_area_unchanged_witness :
    displayRenderBoard boardOneFile screen80 = boardOneFile :=
  render_pass_preserves_layout_when_area_unchanged boardOneFile screen80 (by decide)

/-! ## The producer threads and shutdown (claims C4 and C5)

The three producer threads of `start` (`main.rs`), the consumer, and
the shared `running`/`loaded` atomics become an interleaving transition
system: each thread is a program counter, a channel send succeeds
exactly when the consumer still holds the receiver (a send on a
disconnected `sync_channel` returns `Err`, which every producer either
ignores or treats as a reason to stop), and every send is logged
together with the flag values at the moment it happened. -/

/-- The sending threads. -/
inductive TId where
  | tickerT
  | stdinT
  | scannerT
deriving DecidableEq

/-- The kind of instruction a send carries (payloads are irrelevant to
the shutdown claims). -/
inductive InsKind where
  | toggle
  | renderUpdate
  | keypress
  | resetUi
  | renderIns
  | entry
  | startUiIns
deriving DecidableEq

/-- One attempted channel send, with the shared-flag values observed at
the moment of the send (ghost instrumentation). -/
structure SendRec where
  tid : TId
  ins : InsKind
  success : Bool
  runningAt : Bool
  loadedAt : Bool
  guardLoadedAt : Bool
deriving DecidableEq

/-- The consumer (`main.rs` lines 251–259): `app.start` returns —
dropping the instruction receiver — and only then is `running` cleared. -/
inductive ConsumerPc where
  | running
  | receiverDropped
  | finished
deriving DecidableEq

/-- The `loading_loop` ticker (`main.rs` lines 231–249): guard check,
two sends, park, repeat; halted once the guard fails. -/
inductive TickerPc where
  | check
  | send1
  | send2
  | park
  | halted
deriving DecidableEq

/-- The `hd_scanner` thread (`main.rs` lines 185–229): some number of
per-entry sends, then the `StartUi` send, then `loaded.store(true)`. -/
inductive ScannerPc where
  | entries (n : Nat)
  | sendStartUi
  | setLoaded
  | halted
deriving DecidableEq

/-- The kinds of terminal event the `stdin_handler` distinguishes
(`main.rs` lines 142–179): resize, the special keys (`y`/`q`/ctrl-c)
that re-check `running`, and every other key. -/
inductive EvKind where
  | resize
  | special
  | normal
deriving DecidableEq

/-- The `stdin_handler` thread: processing one event takes one or two
labelled steps so sends from other threads can interleave. -/
inductive StdinPc where
  | idle (evs : List EvKind)
  | resizeSecond (evs : List EvKind)
  | specialCheck (evs : List EvKind)
  | halted
deriving DecidableEq

/-- The interleaved system state: the two shared atomics, whether the
consumer still holds the receiver, the ticker's last guard read
(ghost), the four program counters, and the send log. -/
structure Sys where
  running : Bool
  receiverAlive : Bool
  loaded : Bool
  tickerGuardLoaded : Bool
  cpc : ConsumerPc
  tpc : TickerPc
  spc : ScannerPc
  kpc : StdinPc
  log : List SendRec
deriving DecidableEq

/-- Attempt a channel send: it succeeds exactly when the receiver is
alive, and the flag values at this moment are logged. -/
def sendInstr (s : Sys) (tid : TId) (ins : InsKind) : Sys :=
  { s with log := s.log ++ [{ tid := tid,
                              ins := ins,
                              success := s.receiverAlive,
                              runningAt := s.running,
                              loadedAt := s.loaded,
                              guardLoadedAt := s.tickerGuardLoaded }] }

/-- One interleaving step of one thread. -/
inductive Lbl where
  | consumerReturn
  | consumerClear
  | tickerCheck
  | tickerSendToggle
  | tickerSendRender
  | tickerPark
  | scannerStep
  | scannerStartUi
  | scannerLoad
  | stdinStep
  | stdinResizeRender
  | stdinSpecialCheck
deriving DecidableEq

/-- The transition function of the interleaved system; `none` when the
labelled thread cannot take that step. -/
def next (s : Sys) : Lbl → Option Sys
  | .consumerReturn =>
    match s.cpc with
    | .running => some { s with receiverAlive := false, cpc := .receiverDropped }
    | _ => none
  | .consumerClear =>
    match s.cpc with
    | .receiverDropped => some { s with running := false, cpc := .finished }
    | _ => none
  | .tickerCheck =>
    match s.tpc with
    | .check =>
      if s.running && !s.loaded then
        some { s with tpc := .send1, tickerGuardLoaded := s.loaded }
      else
        some { s with tpc := .halted, tickerGuardLoaded := s.loaded }
    | _ => none
  | .tickerSendToggle =>
    match s.tpc with
    | .send1 => some { sendInstr s .tickerT .toggle with tpc := .send2 }
    | _ => none
  | .tickerSendRender =>
    match s.tpc with
    | .send2 => some { sendInstr s .tickerT .renderUpdate with tpc := .park }
    | _ => none
  | .tickerPark =>
    match s.tpc with
    | .park => some { s with tpc := .check }
    | _ => none
  | .scannerStep =>
    match s.spc with
    | .entries 0 => some { s with spc := .sendStartUi }
    | .entries (n + 1) =>
      if s.receiverAlive then
        some { sendInstr s .scannerT .entry with spc := .entries n }
      else
        some { sendInstr s .scannerT .entry with spc := .sendStartUi }
    | _ => none
  | .scannerStartUi =>
    match s.spc with
    | .sendStartUi => some { sendInstr s .scannerT .startUiIns with spc := .setLoaded }
    | _ => none
  | .scannerLoad =>
    match s.spc with
    | .setLoaded => some { s with loaded := true, spc := .halted }
    | _ => none
  | .stdinStep =>
    match s.kpc with
    | .idle [] => some { s with kpc := .halted }
    | .idle (.resize :: evs) =>
      some { sendInstr s .stdinT .resetUi with kpc := .resizeSecond evs }
    | .idle (.special :: evs) =>
      some { sendInstr s .stdinT .keypress with kpc := .specialCheck evs }
    | .idle (.normal :: evs) =>
      if s.receiverAlive then
        some { sendInstr s .stdinT .keypress with kpc := .idle evs }
      else
        some { sendInstr s .stdinT .keypress with kpc := .halted }
    | _ => none
  | .stdinResizeRender =>
    match s.kpc with
    | .resizeSecond evs => some { sendInstr s .stdinT .renderIns with kpc := .idle evs }
    | _ => none
  | .stdinSpecialCheck =>
    match s.kpc with
    | .specialCheck evs =>
      if s.running then some { s with kpc := .idle evs } else some { s with kpc := .halted }
    | _ => none

/-- The state in which `start` spawns its threads: both flags in their
initial values, the receiver held by the consumer, the scanner facing
`entries` filesystem objects and the stdin handler facing `evs`. -/
def sysInit (entries : Nat) (evs : List EvKind) : Sys :=
  { running := true, receiverAlive := true, loaded := false, tickerGuardLoaded := false,
    cpc := .running, tpc := .check, spc := .entries entries, kpc := .idle evs, log := [] }

/-- Run an interleaving; `none` when some step is not enabled. -/
def applyTrace (s : Sys) : List Lbl → Option Sys
  | [] => some s
  | l :: rest =>
    match next s l with
    | none => none
    | some s2 => applyTrace s2 rest

/-- Shutdown-order invariant: `running` is cleared only after the
consumer has returned and dropped the receiver, so a successful send
can only happen while `running` is still true. -/
def shutdownInv (s : Sys) : Prop :=
  (s.cpc ≠ ConsumerPc.running → s.receiverAlive = false) ∧
  (s.running = false → s.receiverAlive = false) ∧
  (∀ r ∈ s.log, r.success = true → r.runningAt = true)

theorem shutdownInv_send (s : Sys) (tid : TId) (ins : InsKind)
    (h : shutdownInv s) : shutdownInv (sendInstr s tid ins) := by
  obtain ⟨h1, h2, h3⟩ := h
  refine ⟨h1, h2, ?_⟩
  intro r hr hs
  simp only [sendInstr, List.mem_append, List.mem_singleton] at hr
  rcases hr with hr | hr
  · exact h3 r hr hs
  · subst hr
    have hs2 : s.receiverAlive = true := hs
    show s.running = true
    cases hrun : s.running with
    | false => rw [h2 hrun] at hs2; exact absurd hs2 (by simp)
    | true => rfl

theorem shutdownInv_next (s s2 : Sys) (l : Lbl) (h : shutdownInv s)
    (hn : next s l = some s2) : shutdownInv s2 := by
  obtain ⟨h1, h2, h3⟩ := h
  cases l with
  | consumerReturn =>
    simp only [next] at hn
    split at hn
    · cases hn
      exact ⟨fun _ => rfl, fun _ => rfl, h3⟩
    · exact absurd hn (by simp)
  | consumerClear =>
    simp only [next] at hn
    split at hn
    · rename_i hc
      cases hn
      have halive : s.receiverAlive = false := h1 (by rw [hc]; simp)
      exact ⟨fun _ => halive, fun _ => halive, h3⟩
    · exact absurd hn (by simp)
  | tickerCheck =>
    simp only [next] at hn
    split at hn
    · split at hn <;> cases hn <;> exact ⟨h1, h2, h3⟩
    · exact absurd hn (by simp)
  | tickerSendToggle =>
    simp only [next] at hn
    split at hn
    · cases hn
      exact shutdownInv_send s .tickerT .toggle ⟨h1, h2, h3⟩
    · exact absurd hn (by simp)
  | tickerSendRender =>
    simp only [next] at hn
    split at hn
    · cases hn
      exact shutdownInv_send s .tickerT .renderUpdate ⟨h1, h2, h3⟩
    · exact absurd hn (by simp)
  | tickerPark =>
    simp only [next] at hn
    split at hn
    · cases hn
      exact ⟨h1, h2, h3⟩
    · exact absurd hn (by simp)
  | scannerStep =>
    simp only [next] at hn
    split at hn
    · cases hn
      exact ⟨h1, h2, h3⟩
    · split at hn <;> cases hn <;>
        exact shutdownInv_send s .scannerT .entry ⟨h1, h2, h3⟩
    · exact absurd hn (by simp)
  | scannerStartUi =>
    simp only [next] at hn
    split at hn
    · cases hn
      exact shutdownInv_send s .scannerT .startUiIns ⟨h1, h2, h3⟩
    · exact absurd hn (by simp)
  | scannerLoad =>
    simp only [next] at hn
    split at hn
    · cases hn
      exact ⟨h1, h2, h3⟩
    · exact absurd hn (by simp)
  | stdinStep =>
    simp only [next] at hn
    split at hn
    · cases hn
      exact ⟨h1, h2, h3⟩
    · cases hn
      exact shutdownInv_send s .stdinT .resetUi ⟨h1, h2, h3⟩
    · cases hn
      exact shutdownInv_send s .stdinT .keypress ⟨h1, h2, h3⟩
    · split at hn <;> cases hn <;>
        exact shutdownInv_send s .stdinT .keypress ⟨h1, h2, h3⟩
    · exact absurd hn (by simp)
  | stdinResizeRender =>
    simp only [next] at hn
    split at hn
    · cases hn
      exact shutdownInv_send s .stdinT .renderIns ⟨h1, h2, h3⟩
    · exact absurd hn (by simp)
  | stdinSpecialCheck =>
    simp only [next] at hn
    split at hn
    · split at hn <;> cases hn <;> exact ⟨h1, h2, h3⟩
    · exact absurd hn (by simp)

theorem shutdownInv_init (entries : Nat) (evs : List EvKind) :
    shutdownInv (sysInit entries evs) :=
  ⟨fun hc => absurd rfl hc, fun hr => absurd hr (by simp [sysInit]),
   fun r hr => absurd hr (by simp [sysInit])⟩

theorem shutdownInv_applyTrace :
    ∀ (t : List Lbl) (s s2 : Sys), shutdownInv s → applyTrace s t = some s2 →
      shutdownInv s2
  | [], s, s2, h, ht => by
    simp only [applyTrace] at ht
    cases ht
    exact h
  | l :: rest, s, s2, h, ht => by
    simp only [applyTrace] at ht
    cases hstep : next s l with
    | none => rw [hstep] at ht; exact absurd ht (by simp)
    | some s3 =>
      rw [hstep] at ht
      exact shutdownInv_applyTrace rest s3 s2 (shutdownInv_next s s3 l h hstep) ht

/-- C4: in every interleaving of the threads of `start`, every
instruction the key-event producer or the ticker successfully sends is
sent while the `running` flag is still true: the consumer drops the
instruction receiver before clearing `running`, so once `running` is
false every send fails, and both producers then stop (the ticker at its
guard, the stdin handler at its running check or on the send error). -/
theorem producers_send_only_while_running (entries : Nat) (evs : List EvKind)
    (t : List Lbl) (s : Sys) (h : applyTrace (sysInit entries evs) t = some s)
    (r : SendRec) (hr : r ∈ s.log)
    (_htid : r.tid = TId.tickerT ∨ r.tid = TId.stdinT)
    (hs : r.success = true) : r.runningAt = true :=
  (shutdownInv_applyTrace t (sysInit entries evs) s
    (shutdownInv_init entries evs) h).2.2 r hr hs

/-- A shutdown-free interleaving: the ticker passes its guard once and
sends its toggle instruction. -/
def c4Trace : List Lbl := [.tickerCheck, .tickerSendToggle]

/-- The state at the end of `c4Trace`. -/
def c4Final : Sys := (applyTrace (sysInit 0 []) c4Trace).getD (sysInit 0 [])

/-- The one send of `c4Trace`. -/
def c4Rec : SendRec :=
  (c4Final.log).getD 0 ⟨.tickerT, .toggle, false, false, false, false⟩

/-- Witness for C4: the toggle instruction of `c4Trace` was sent while
`running` was true. -/
theorem producers_send_only_while_running_witness : c4Rec.runningAt = true :=
  producers_send_only_while_running 0 [] c4Trace c4Final (by decide) c4Rec
    (by decide) (by decide) (by decide)

/-- An interleaving in which the ticker passes its guard, the scanner
then finishes (StartUi sent, `loaded` set), and only then does the
ticker perform the send of its in-flight iteration. -/
def c5Trace : List Lbl :=
  [.tickerCheck, .scannerStep, .scannerStartUi, .scannerLoad, .tickerSendToggle]

/-- The state at the end of `c5Trace`. -/
def c5Final : Sys := (applyTrace (sysInit 0 []) c5Trace).getD (sysInit 0 [])

/-- The ticker's toggle send of `c5Trace` (the `StartUi` send is at
index 0). -/
def c5Rec : SendRec :=
  (c5Final.log).getD 1 ⟨.tickerT, .toggle, false, false, false, false⟩

/-- Counterexample to C5 as stated: in the valid interleaving `c5Trace`
the ticker successfully sends a `ToggleScanningVisualIndicator`
instruction after the `loaded` flag has been set — the guard check and
the sends of one ticker iteration are not atomic, so one in-flight
iteration can land after the scan has finished. -/
theorem ticker_can_send_after_loaded :
    ((applyTrace (sysInit 0 []) c5Trace).map fun s =>
      s.log.any fun r => r.tid == TId.tickerT && r.success && r.loadedAt) = some true := by
  decide

/-- Ticker-guard invariant: the ticker reaches its send states only
through a guard check that observed `loaded = false`, and `loaded` is
set only after the scanner has sent everything, `StartUi` included. -/
def tickerGuardInv (s : Sys) : Prop :=
  ((s.tpc = TickerPc.send1 ∨ s.tpc = TickerPc.send2) → s.tickerGuardLoaded = false) ∧
  (s.loaded = true → s.spc = ScannerPc.halted) ∧
  ((s.spc = ScannerPc.setLoaded ∨ s.spc = ScannerPc.halted) →
    (s.log.any fun r => r.tid == TId.scannerT && r.ins == InsKind.startUiIns) = true) ∧
  (∀ r ∈ s.log, r.tid = TId.tickerT → r.guardLoadedAt = false)

theorem any_append_one (l : List SendRec) (x : SendRec) (f : SendRec → Bool)
    (h : l.any f = true) : (l ++ [x]).any f = true := by
  simp [List.any_append, h]

theorem tickerGuardInv_next (s s2 : Sys) (l : Lbl) (h : tickerGuardInv s)
    (hn : next s l = some s2) : tickerGuardInv s2 := by
  obtain ⟨g1, g2, g3, g4⟩ := h
  have memSplit : ∀ (tid : TId) (ins : InsKind) (r : SendRec),
      r ∈ (sendInstr s tid ins).log → r ∈ s.log ∨
        r = { tid := tid, ins := ins, success := s.receiverAlive,
              runningAt := s.running, loadedAt := s.loaded,
              guardLoadedAt := s.tickerGuardLoaded } := by
    intro tid ins r hr
    simpa [sendInstr] using hr
  cases l with
  | consumerReturn =>
    simp only [next] at hn
    split at hn
    · cases hn
      exact ⟨g1, g2, g3, g4⟩
    · exact absurd hn (by simp)
  | consumerClear =>
    simp only [next] at hn
    split at hn
    · cases hn
      exact ⟨g1, g2, g3, g4⟩
    · exact absurd hn (by simp)
  | tickerCheck =>
    simp only [next] at hn
    split at hn
    · split at hn
      · rename_i hguard
        cases hn
        have hloaded : s.loaded = false := by
          have := (Bool.and_eq_true _ _).mp hguard
          simpa using this.2
        exact ⟨fun _ => hloaded, g2, g3, g4⟩
      · cases hn
        exact ⟨fun hor => by rcases hor with h | h <;> exact TickerPc.noConfusion h,
               g2, g3, g4⟩
    · exact absurd hn (by simp)
  | tickerSendToggle =>
    simp only [next] at hn
    split at hn
    · rename_i hts
      cases hn
      have hguard : s.tickerGuardLoaded = false := g1 (Or.inl hts)
      refine ⟨fun _ => hguard, g2, fun hsp => any_append_one _ _ _ (g3 hsp), ?_⟩
      intro r hr ht
      rcases memSplit _ _ r hr with hr | hr
      · exact g4 r hr ht
      · subst hr
        exact hguard
    · exact absurd hn (by simp)
  | tickerSendRender =>
    simp only [next] at hn
    split at hn
    · rename_i hts
      cases hn
      have hguard : s.tickerGuardLoaded = false := g1 (Or.inr hts)
      refine ⟨fun hor => by rcases hor with h | h <;> exact TickerPc.noConfusion h,
              g2, fun hsp => any_append_one _ _ _ (g3 hsp), ?_⟩
      intro r hr ht
      rcases memSplit _ _ r hr with hr | hr
      · exact g4 r hr ht
      · subst hr
        exact hguard
    · exact absurd hn (by simp)
  | tickerPark =>
    simp only [next] at hn
    split at hn
    · cases hn
      exact ⟨fun hor => by rcases hor with h | h <;> exact TickerPc.noConfusion h,
             g2, g3, g4⟩
    · exact absurd hn (by simp)
  | scannerStep =>
    simp only [next] at hn
    split at hn
    · rename_i hspc
      cases hn
      refine ⟨g1, ?_, ?_, g4⟩
      · intro hl
        rw [hspc] at g2
        exact absurd (g2 hl) (by simp)
      · intro hor
        rcases hor with h | h <;> exact ScannerPc.noConfusion h
    · rename_i n hspc
      have hload : s.loaded = true → False := by
        intro hl
        rw [hspc] at g2
        exact absurd (g2 hl) (by simp)
      have hrec : ∀ r ∈ (sendInstr s TId.scannerT InsKind.entry).log,
          r.tid = TId.tickerT → r.guardLoadedAt = false := by
        intro r hr ht
        rcases memSplit _ _ r hr with hr | hr
        · exact g4 r hr ht
        · subst hr
          exact absurd ht (by simp)
      split at hn <;> cases hn <;>
        exact ⟨g1, fun hl => absurd hl (by simpa using hload),
               fun hor => by rcases hor with h | h <;> exact ScannerPc.noConfusion h,
               hrec⟩
    · exact absurd hn (by simp)
  | scannerStartUi =>
    simp only [next] at hn
    split at hn
    · rename_i hspc
      cases hn
      refine ⟨g1, ?_, ?_, ?_⟩
      · intro hl
        rw [hspc] at g2
        exact absurd (g2 hl) (by simp)
      · intro _
        apply List.any_eq_true.mpr
        refine ⟨{ tid := TId.scannerT, ins := InsKind.startUiIns,
                  success := s.receiverAlive, runningAt := s.running,
                  loadedAt := s.loaded, guardLoadedAt := s.tickerGuardLoaded }, ?_, ?_⟩
        · simp [sendInstr]
        · simp
      · intro r hr ht
        rcases memSplit _ _ r hr with hr | hr
        · exact g4 r hr ht
        · subst hr
          exact absurd ht (by simp)
    · exact absurd hn (by simp)
  | scannerLoad =>
    simp only [next] at hn
    split at hn
    · rename_i hspc
      cases hn
      exact ⟨g1, fun _ => rfl, fun _ => g3 (Or.inl hspc), g4⟩
    · exact absurd hn (by simp)
  | stdinStep =>
    have hstdin : ∀ ins : InsKind, ∀ r ∈ (sendInstr s TId.stdinT ins).log,
        r.tid = TId.tickerT → r.guardLoadedAt = false := by
      intro ins r hr ht
      rcases memSplit _ _ r hr with hr | hr
      · exact g4 r hr ht
      · subst hr
        exact absurd ht (by simp)
    simp only [next] at hn
    split at hn
    · cases hn
      exact ⟨g1, g2, g3, g4⟩
    · cases hn
      exact ⟨g1, g2, fun hsp => any_append_one _ _ _ (g3 hsp), hstdin _⟩
    · cases hn
      exact ⟨g1, g2, fun hsp => any_append_one _ _ _ (g3 hsp), hstdin _⟩
    · split at hn <;> cases hn <;>
        exact ⟨g1, g2, fun hsp => any_append_one _ _ _ (g3 hsp), hstdin _⟩
    · exact absurd hn (by simp)
  | stdinResizeRender =>
    have hstdin : ∀ ins : InsKind, ∀ r ∈ (sendInstr s TId.stdinT ins).log,
        r.tid = TId.tickerT → r.guardLoadedAt = false := by
      intro ins r hr ht
      rcases memSplit _ _ r hr with hr | hr
      · exact g4 r hr ht
      · subst hr
        exact absurd ht (by simp)
    simp only [next] at hn
    split at hn
    · cases hn
      exact ⟨g1, g2, fun hsp => any_append_one _ _ _ (g3 hsp), hstdin _⟩
    · exact absurd hn (by simp)
  | stdinSpecialCheck =>
    simp only [next] at hn
    split at hn
    · split at hn <;> cases hn <;> exact ⟨g1, g2, g3, g4⟩
    · exact absurd hn (by simp)

theorem tickerGuardInv_init (entries : Nat) (evs : List EvKind) :
    tickerGuardInv (sysInit entries evs) := by
  refine ⟨fun hor => ?_, fun hl => ?_, fun hor => ?_, fun r hr => ?_⟩
  · rcases hor with h | h <;> exact TickerPc.noConfusion h
  · exact absurd hl (by simp [sysInit])
  · rcases hor with h | h <;> exact ScannerPc.noConfusion h
  · exact absurd hr (by simp [sysInit])

theorem tickerGuardInv_applyTrace :
    ∀ (t : List Lbl) (s s2 : Sys), tickerGuardInv s → applyTrace s t = some s2 →
      tickerGuardInv s2
  | [], s, s2, h, ht => by
    simp only [applyTrace] at ht
    cases ht
    exact h
  | l :: rest, s, s2, h, ht => by
    simp only [applyTrace] at ht
    cases hstep : next s l with
    | none => rw [hstep] at ht; exact absurd ht (by simp)
    | some s3 =>
      rw [hstep] at ht
      exact tickerGuardInv_applyTrace rest s3 s2 (tickerGuardInv_next s s3 l h hstep) ht

/-- C5 (amended): the ticker emits render/animation instructions only
under a guard read that observed the scan still in progress — every
ticker send in every interleaving carries a guard snapshot of
`loaded = false`, so after the ticker's next guard check it sends
nothing further, and at most the one in-flight iteration lands after
`loaded` is set; and `loaded` becoming true does mean the scanner has
already sent all its instructions including `StartUi`. -/
theorem ticker_sends_carry_unloaded_guard (entries : Nat) (evs : List EvKind)
    (t : List Lbl) (s : Sys) (h : applyTrace (sysInit entries evs) t = some s)
    (r : SendRec) (hr : r ∈ s.log) (ht : r.tid = TId.tickerT) :
    r.guardLoadedAt = false ∧
    (s.loaded = true → s.spc = ScannerPc.halted ∧
      (s.log.any fun q => q.tid == TId.scannerT && q.ins == InsKind.startUiIns) = true) := by
  have hinv := tickerGuardInv_applyTrace t (sysInit entries evs) s
    (tickerGuardInv_init entries evs) h
  exact ⟨hinv.2.2.2 r hr ht,
         fun hl => ⟨hinv.2.1 hl, hinv.2.2.1 (Or.inr (hinv.2.1 hl))⟩⟩

/-- Witness for C5 (amended): in `c5Trace` the in-flight toggle send
carries a guard snapshot of `loaded = false`, and at the end of the
trace the scanner is halted with `StartUi` already sent. -/
theorem ticker_sends_carry_unloaded_guard_witness :
    c5Rec.guardLoadedAt = false ∧
    (c5Final.loaded = true → c5Final.spc = ScannerPc.halted ∧
      (c5Final.log.any fun q =>
        q.tid == TId.scannerT && q.ins == InsKind.startUiIns) = true) :=
  ticker_sends_carry_unloaded_guard 0 [] c5Trace c5Final (by decide) c5Rec
    (by decide) (by decide)

end Diskonaut
